import Mathlib

/-!
Verification development for the buildr-chat operation-application pipeline.

The definitions below are a shallow embedding of the pipeline sources:
- `src/lib/stepHandlers.ts` (the Executor handlers),
- `src/pages/api/buildr/run-step.ts` (the per-step Run Loop),
- `src/pages/api/buildr/expand-operations.ts` (the Step Expander),
- the bulk validate-then-apply endpoint (`buildr_app_operations` path) with
  `createVersionSnapshot`.

Database tables are modelled as Lean lists of typed rows; Supabase
`select ... single()` becomes `List.find?`, conditional `update` becomes a
filtered map, `insert` appends, and `upsert` replaces the first row with the
conflicting key or appends.  JavaScript truthiness on optional string fields
(`a || b`) is modelled by `jsStr` / `jsOrStr`: `none` stands for an absent or
non-string value and `some ""` is falsy, as in JavaScript.
-/

namespace Buildr

/-- JavaScript truthiness for an optional string: absent and `""` are falsy. -/
def jsStr : Option String → Option String
  | some s => if s = "" then none else some s
  | none => none

/-- JavaScript `a || b` on optional strings. -/
def jsOrStr (a b : Option String) : Option String :=
  match jsStr a with
  | some s => some s
  | none => jsStr b

/-- JavaScript string interpolation display of a possibly-absent value. -/
def jsDisplay : Option String → String
  | none => "undefined"
  | some s => s

/-- One field descriptor of a `create_model` payload; `none` models an absent
or non-string property. -/
structure FieldSpec where
  name : Option String := none
  type : Option String := none
deriving DecidableEq, Repr

/-- One permission entry `(resource, action, role)`; every property is
optional exactly as in the duck-typed payloads. -/
structure Permission where
  resource : Option String := none
  action : Option String := none
  role : Option String := none
deriving DecidableEq, Repr

/-- A component instance embedded in a page's `components` array. -/
structure CompInstance where
  id : String
  ctype : String
  name : String
deriving DecidableEq, Repr

/-- The `details` property of a step payload: either a JSON object carrying
the recognized optional members, or itself an array of permission entries. -/
inductive StepDetails where
  | obj (access_rules : Option (List String)) (permissions : Option (List Permission))
      (rules : Option (List Permission)) (fields : Option (List FieldSpec))
      (description : Option String)
  | arr (ps : List Permission)
deriving DecidableEq, Repr

/-- The `details.fields` member (absent when `details` is an array). -/
def StepDetails.fieldsOf : StepDetails → Option (List FieldSpec)
  | .obj _ _ _ f _ => f
  | .arr _ => none

/-- The `details.description` member. -/
def StepDetails.descriptionOf : StepDetails → Option String
  | .obj _ _ _ _ d => d
  | .arr _ => none

/-- A duck-typed step payload as consumed by the Executor handlers
(`Step` in `stepHandlers.ts`): every property the handlers read. -/
structure HandlerStep where
  type : Option String := none
  name : Option String := none
  target : Option String := none
  slug : Option String := none
  title : Option String := none
  layout : Option String := none
  components : Option (List CompInstance) := none
  fields : Option (List FieldSpec) := none
  details : Option StepDetails := none
  componentType : Option String := none
  pageSlug : Option String := none
  componentId : Option String := none
  permissions : Option (List Permission) := none
deriving DecidableEq, Repr

/-- A stored specification document (`config_value` of a `buildr_app_spec` /
`buildr_app_config` row), typed by its producer. -/
inductive SpecValue where
  | modelV (name : String) (fields : List FieldSpec) (description : Option String)
  | pageV (slug : String) (title : String) (layout : Option String)
      (components : List CompInstance) (details : Option StepDetails)
  | componentV (name : String) (ctype : String) (details : Option StepDetails)
  | rulesV (rules : List Permission)
  | schemaV (theme : Option String)
deriving DecidableEq, Repr

/-- JavaScript `(config_value).rules || []`. -/
def SpecValue.rulesOf : SpecValue → List Permission
  | .rulesV rs => rs
  | _ => []

/-- One row of the Specification Store
(`buildr_app_spec`, identity `(app_id, config_type, config_key)`). -/
structure SpecRow where
  appId : String
  configType : String
  configKey : String
  configValue : SpecValue
  userId : Option String := none
  buildRequestId : Option String := none
deriving DecidableEq, Repr

/-- The Specification Store table. -/
abbrev SpecDB := List SpecRow

/-- Embeds `select ... eq(app_id).eq(config_type).eq(config_key).single()`. -/
def findSpec (db : SpecDB) (appId ctype key : String) : Option SpecRow :=
  db.find? (fun r => r.appId == appId && r.configType == ctype && r.configKey == key)

/-- Embeds `insert` on the Specification Store. -/
def insertSpec (db : SpecDB) (row : SpecRow) : SpecDB :=
  db ++ [row]

/-- Embeds `upsert(..., onConflict: "app_id,config_type,config_key")`:
replace the first conflicting row (the key is unique, so at most one exists),
else append. -/
def upsertSpec (db : SpecDB) (row : SpecRow) : SpecDB :=
  match db with
  | [] => [row]
  | r :: rest =>
    if r.appId == row.appId && r.configType == row.configType && r.configKey == row.configKey then
      row :: rest
    else
      r :: upsertSpec rest row

/-- Embeds `update({config_value}).eq(app_id).eq(config_type).eq(config_key)`. -/
def updateSpecValue (db : SpecDB) (appId ctype key : String) (v : SpecValue) : SpecDB :=
  db.map (fun r =>
    if r.appId == appId && r.configType == ctype && r.configKey == key then
      { r with configValue := v }
    else r)

/-- Result record of one Executor handler (`StepResult` in `stepHandlers.ts`;
the `data` member is not modelled). -/
structure StepResult where
  success : Bool
  error : Option String := none
deriving DecidableEq, Repr

/-- A failing `StepResult` carrying the given message. -/
def StepResult.fail (msg : String) : StepResult :=
  { success := false, error := some msg }

/-- ASCII lowercasing of one character, as JavaScript
`String.prototype.toLowerCase` acts on the basic-latin letters the pipeline's
type names use. -/
def lowerChar (c : Char) : Char :=
  if 65 ≤ c.toNat ∧ c.toNat ≤ 90 then Char.ofNat (c.toNat + 32) else c

/-- Character-wise lowercasing of a string (JavaScript `s.toLowerCase()`). -/
def lowerStr (s : String) : String :=
  String.mk (s.data.map lowerChar)

/-- The alias table of `handleCreateModel`: after lowercasing, the sequential
rewrites `string -> text`, `integer -> number`, `datetime -> timestamptz`,
`reference -> uuid`, `authentication -> jsonb`.  The source applies the five
rewrites one after another; since no rewrite's output equals a later
rewrite's key, that chain coincides with this first-match conditional. -/
def aliasFieldType (t0 : String) : String :=
  if t0 = "string" then "text"
  else if t0 = "integer" then "number"
  else if t0 = "datetime" then "timestamptz"
  else if t0 = "reference" then "uuid"
  else if t0 = "authentication" then "jsonb"
  else t0

/-- Normalization of a field type: lowercase, then the alias table. -/
def normalizeFieldType (s : String) : String :=
  aliasFieldType (lowerStr s)

/-- The canonical set the normalized type is checked against
(`normalizedValidTypes` in `handleCreateModel`). -/
def normalizedValidTypes : List String :=
  ["text", "number", "boolean", "date", "timestamptz", "uuid", "jsonb", "array", "object"]

/-- The tail of the `Invalid field type` error message. -/
def invalidTypeMsg (raw disp : String) : String :=
  s!"Invalid field type: {raw} (normalized: {disp}). Must be one of: text, string, number, integer, boolean, date, datetime, timestamptz, uuid, reference, authentication, jsonb, array, object"

/-- The per-field validation loop of `handleCreateModel`: first error wins.
For an absent or non-string `type` the source skips normalization and the
membership test fails; its interpolation then displays `undefined`. -/
def checkFieldList : List FieldSpec → Option String
  | [] => none
  | f :: rest =>
    match jsStr f.name with
    | none => some "Field missing required property: name (string)."
    | some _ =>
      match jsStr f.type with
      | none => some (invalidTypeMsg (jsDisplay f.type) (jsDisplay f.type))
      | some t =>
        if normalizedValidTypes.contains (normalizeFieldType t) then checkFieldList rest
        else some (invalidTypeMsg t (normalizeFieldType t))

/-- The acceptance test the source applies to one string-typed field type:
normalize, then `!fieldType || !normalizedValidTypes.includes(fieldType)`
rejects. -/
def isAcceptedFieldType (s : String) : Bool :=
  let t := normalizeFieldType s
  !(t == "") && normalizedValidTypes.contains t

/-- The field-map of the insert path of `handleCreateModel`: a truthy string
`type` is normalized, anything else is kept unchanged. -/
def normalizeField (f : FieldSpec) : FieldSpec :=
  match jsStr f.type with
  | some t => { f with type := some (normalizeFieldType t) }
  | none => f

/-- Embeds `handleCreateModel` of `stepHandlers.ts`: resolve the name from
`name`/`target`, resolve fields from `fields` or `details.fields`, validate,
reject when a data-model entry (`config_type` `architecture`) with this key
already exists, else insert one SpecEntry. -/
def handleCreateModel (appId : String) (step : HandlerStep)
    (buildRequestId userId : Option String) (db : SpecDB) : StepResult × SpecDB :=
  match jsOrStr step.name step.target with
  | none =>
    (.fail "create_model step missing required field: name or target (string).", db)
  | some modelName =>
    let fields := match step.fields with
      | some fs => fs
      | none => (step.details.bind StepDetails.fieldsOf).getD []
    if fields.isEmpty then
      (.fail "create_model step missing required field: fields (array) in step.fields or step.details.fields", db)
    else
      match checkFieldList fields with
      | some msg => (.fail msg, db)
      | none =>
        match findSpec db appId "architecture" modelName with
        | some _ => (.fail s!"Model \"{modelName}\" already exists", db)
        | none =>
          let normalizedFields := fields.map normalizeField
          let row : SpecRow :=
            { appId := appId
              configType := "architecture"
              configKey := modelName
              configValue := .modelV modelName normalizedFields
                (step.details.bind StepDetails.descriptionOf)
              userId := userId
              buildRequestId := buildRequestId }
          ({ success := true }, insertSpec db row)

/-- Embeds `handleCreatePage`: resolve the slug from `slug`/`target`, reject
when a `ui` entry with this key exists, check a given layout exists, else
insert one page SpecEntry (note the conflict message interpolates the raw
`step.slug`, not the resolved slug). -/
def handleCreatePage (appId : String) (step : HandlerStep)
    (buildRequestId userId : Option String) (db : SpecDB) : StepResult × SpecDB :=
  match jsOrStr step.slug step.target with
  | none =>
    (.fail "create_page step missing required field: slug or target (string)", db)
  | some slug =>
    match findSpec db appId "ui" slug with
    | some _ => (.fail ("Page with slug \"" ++ jsDisplay step.slug ++ "\" already exists"), db)
    | none =>
      let row : SpecRow :=
        { appId := appId
          configType := "ui"
          configKey := slug
          configValue := .pageV slug ((jsStr step.title).getD slug) (jsStr step.layout)
            (step.components.getD []) step.details
          userId := userId
          buildRequestId := buildRequestId }
      match jsStr step.layout with
      | some l =>
        if (findSpec db appId "ui" l).isSome then ({ success := true }, insertSpec db row)
        else (.fail s!"Layout \"{l}\" does not exist", db)
      | none => ({ success := true }, insertSpec db row)

/-- Placeholder for `Date.now()` in the generated component-instance id; the
clock value never influences the pipeline's control flow. -/
def dateNowLiteral : String := "0"

/-- Embeds `handleCreateComponent`: upsert a component-library `ui` entry
keyed by name; when `pageSlug` is given, first require the page to exist and
afterwards append a fresh component instance into that page's `components`
array.  The source's untyped push into a non-page JSON object (reachable only
when the component name equals the page slug) keeps the value unchanged in
this typed model. -/
def handleCreateComponent (appId : String) (step : HandlerStep)
    (buildRequestId userId : Option String) (db : SpecDB) : StepResult × SpecDB :=
  match jsOrStr step.name step.target with
  | none =>
    (.fail "create_component step missing required field: name or target (string)", db)
  | some componentName =>
    let ctype := (jsStr step.componentType).getD "Component"
    let compRow : SpecRow :=
      { appId := appId
        configType := "ui"
        configKey := componentName
        configValue := .componentV componentName ctype step.details
        userId := userId
        buildRequestId := buildRequestId }
    match jsStr step.pageSlug with
    | none => ({ success := true }, upsertSpec db compRow)
    | some ps =>
      if (findSpec db appId "ui" ps).isNone then
        (.fail s!"Page \"{ps}\" does not exist", db)
      else
        let db1 := upsertSpec db compRow
        match findSpec db1 appId "ui" ps with
        | none => ({ success := true }, db1)
        | some row =>
          match row.configValue with
          | .pageV slug title layout comps det =>
            let cid := (jsStr step.componentId).getD (componentName ++ "-" ++ dateNowLiteral)
            let inst : CompInstance := { id := cid, ctype := ctype, name := componentName }
            let v := SpecValue.pageV slug title layout (comps ++ [inst]) det
            ({ success := true }, updateSpecValue db1 appId "ui" ps v)
          | _ => ({ success := true }, db1)

/-- The closed action set of `handleSetPermissions`. -/
def validActions : List String :=
  ["read", "write", "delete", "admin", "create", "update"]

/-- The closed role set of `handleSetPermissions`. -/
def validRoles : List String :=
  ["user", "admin", "public", "authenticated"]

/-- The input-shape normalization of `handleSetPermissions`: an explicit
`permissions` array wins; otherwise `details.access_rules` (actions given as
strings, resource from `target || name || slug || "resource"`, role defaulted
to `user`), then `details.permissions`, then `details.rules`, then `details`
itself when it is an array. -/
def resolvePermissionList (step : HandlerStep) : Option (List Permission) :=
  match step.permissions with
  | some ps => some ps
  | none =>
    match step.details with
    | none => none
    | some d =>
      let resource := (jsOrStr (jsOrStr step.target step.name) step.slug).getD "resource"
      match d with
      | .arr ps => some ps
      | .obj accessRules detailPerms detailRules _ _ =>
        match accessRules with
        | some actions =>
          some (actions.map (fun a =>
            { resource := some resource, action := some a, role := some "user" }))
        | none =>
          match detailPerms with
          | some l => some l
          | none =>
            match detailRules with
            | some l => some l
            | none => none

/-- The per-entry validation loop of `handleSetPermissions`: `resource` must
be a truthy string, `action` must lie in the closed set, and `role` is checked
against the closed set only when it is truthy. -/
def checkPermissionList : List Permission → Option String
  | [] => none
  | p :: rest =>
    match jsStr p.resource with
    | none => some "Permission missing required field: resource (string)."
    | some _ =>
      match jsStr p.action with
      | none =>
        some ("Invalid action: " ++ jsDisplay p.action ++ ". Must be one of: read, write, delete, admin, create, update")
      | some a =>
        if !validActions.contains a then
          some s!"Invalid action: {a}. Must be one of: read, write, delete, admin, create, update"
        else
          match jsStr p.role with
          | none => checkPermissionList rest
          | some r =>
            if validRoles.contains r then checkPermissionList rest
            else some s!"Invalid role: {r}. Must be one of: user, admin, public, authenticated"

/-- The incoming entry's role with the JavaScript default:
`newPermission.role || "user"`. -/
def defaultedRole (p : Permission) : String :=
  (jsStr p.role).getD "user"

/-- The merge-match of `handleSetPermissions`: a stored rule matches the
incoming entry when `resource` and `action` agree exactly (absent equals
absent, as in JavaScript strict equality on two `undefined`s) and the stored
`role` equals the incoming role defaulted to `"user"`; a stored rule without
a `role` therefore never matches. -/
def permMatchKey (r p : Permission) : Bool :=
  r.resource == p.resource && r.action == p.action && r.role == some (defaultedRole p)

/-- One iteration of the merge loop (`findIndex` then replace, else push):
replace the first matching stored rule, else append the incoming entry
verbatim. -/
def mergeOneRule (rules : List Permission) (p : Permission) : List Permission :=
  match rules with
  | [] => [p]
  | r :: rest => if permMatchKey r p then p :: rest else r :: mergeOneRule rest p

/-- The merge of all incoming entries into the stored ruleset. -/
def mergeRules (existing incoming : List Permission) : List Permission :=
  incoming.foldl mergeOneRule existing

/-- The app's currently stored permission ruleset: the `rules` member of the
`(permissions, rules)` SpecEntry, or `[]` when absent (the "Get existing
permissions" block of `handleSetPermissions`). -/
def storedRules (db : SpecDB) (appId : String) : List Permission :=
  match findSpec db appId "permissions" "rules" with
  | some row => row.configValue.rulesOf
  | none => []

/-- Embeds `handleSetPermissions`: normalize the input shape, validate every
entry, merge into the app's `(permissions, rules)` SpecEntry and upsert it. -/
def handleSetPermissions (appId : String) (step : HandlerStep)
    (buildRequestId userId : Option String) (db : SpecDB) : StepResult × SpecDB :=
  match resolvePermissionList step with
  | none =>
    (.fail "set_permissions step missing required field: permissions (array) or details.access_rules/permissions/rules (array).", db)
  | some incoming =>
    match checkPermissionList incoming with
    | some msg => (.fail msg, db)
    | none =>
      let merged := mergeRules (storedRules db appId) incoming
      let row : SpecRow :=
        { appId := appId
          configType := "permissions"
          configKey := "rules"
          configValue := .rulesV merged
          userId := userId
          buildRequestId := buildRequestId }
      ({ success := true }, upsertSpec db row)

/-- Embeds `executeStep` of `stepHandlers.ts`: dispatch on the step type. -/
def executeStepHandler (appId : String) (step : HandlerStep)
    (buildRequestId userId : Option String) (db : SpecDB) : StepResult × SpecDB :=
  match step.type with
  | some "create_model" => handleCreateModel appId step buildRequestId userId db
  | some "create_page" => handleCreatePage appId step buildRequestId userId db
  | some "create_component" => handleCreateComponent appId step buildRequestId userId db
  | some "set_permissions" => handleSetPermissions appId step buildRequestId userId db
  | _ => (.fail ("Unknown step type: " ++ jsDisplay step.type), db)

/-- One row of `buildr_execution_steps` as the current schema stores it
(column `type`, no legacy `step_type`; `none` models SQL NULL). -/
structure StepRow where
  id : Nat
  appId : String
  operationId : Option Nat := none
  stepIndex : Nat
  type : Option String := none
  target : Option String := none
  status : String := "pending"
  errorMessage : Option String := none
deriving DecidableEq, Repr

/-- One row of `buildr_operations_log`. -/
structure OpRow where
  id : Nat
  appId : String
  userId : String := ""
  intent : String := ""
  operations : Option (List HandlerStep) := none
  status : String := "pending"
  errorMessage : Option String := none
  appliedAt : Option String := none
  buildRequestId : Option String := none
deriving DecidableEq, Repr

/-- One row of `buildr_apps` (the columns `run-step.ts` selects). -/
structure AppRow where
  id : String
  userId : Option String := none
  buildRequestId : Option String := none
deriving DecidableEq, Repr

/-- The snapshot document `createVersionSnapshot` materializes: the app's
config rows partitioned by `config_type`. -/
structure ConfigSnapshot where
  pages : List (String × SpecValue) := []
  dataModels : List (String × SpecValue) := []
  schemaDoc : Option SpecValue := none
  theme : Option String := none
  permissions : Option SpecValue := none
  layouts : List (String × SpecValue) := []
  components : List (String × SpecValue) := []
deriving DecidableEq, Repr

/-- One case of the partition switch of `createVersionSnapshot`. -/
def snapshotStep (acc : ConfigSnapshot) (row : SpecRow) : ConfigSnapshot :=
  if row.configType == "page" then
    { acc with pages := acc.pages ++ [(row.configKey, row.configValue)] }
  else if row.configType == "data_model" then
    { acc with dataModels := acc.dataModels ++ [(row.configKey, row.configValue)] }
  else if row.configType == "schema" then
    let th := match row.configValue with
      | .schemaV t => jsStr t
      | _ => none
    { acc with schemaDoc := some row.configValue,
               theme := match th with | some t => some t | none => acc.theme }
  else if row.configType == "permissions" then
    { acc with permissions := some row.configValue }
  else if row.configType == "layout" then
    { acc with layouts := acc.layouts ++ [(row.configKey, row.configValue)] }
  else if row.configType == "component" then
    { acc with components := acc.components ++ [(row.configKey, row.configValue)] }
  else acc

/-- The full partition of the app's config rows. -/
def buildConfigSnapshot (configs : SpecDB) : ConfigSnapshot :=
  configs.foldl snapshotStep {}

/-- One row of the append-only `buildr_app_versions` table. -/
structure VersionRow where
  appId : String
  userId : String
  operationId : Nat
  chatMessageId : Option String := none
  versionNumber : Nat
  snapshot : ConfigSnapshot
deriving DecidableEq, Repr

/-- The next version number for an app: `coalesce(max(version_number), 0) + 1`
(both the `buildr_get_next_version_number` RPC and the manual fallback). -/
def nextVersionNumber (versions : List VersionRow) (appId : String) : Nat :=
  (versions.filter (fun v => v.appId == appId)).foldl (fun m v => max m v.versionNumber) 0 + 1

/-- The state touched by the per-step Run Loop (`run-step.ts`): execution
steps, the operations log, the apps table, the Specification Store and the
versions log (the last is carried to show the Run Loop never writes it). -/
structure RunState where
  steps : List StepRow
  ops : List OpRow
  apps : List AppRow
  specs : SpecDB
  versions : List VersionRow := []
  nextId : Nat := 0
deriving DecidableEq, Repr

/-- The response union of `run-step.ts`. -/
inductive RunResult where
  | applied (step : StepRow)
  | done
  | error (msg : String)
deriving DecidableEq, Repr

/-- Embeds the claim query: `eq(app_id).eq(status, pending)`, ordered by
`step_index` ascending, `limit(1).single()`.  The query constrains only
`step_index` — it has no secondary sort key — so among rows tying on the
index the database may return any of them.  An executable model must pick
one; this fold picks the first row in table order, which is one admissible
behavior and not a guarantee of the program (see
`validClaimQueryResult` for the properties the query does guarantee). -/
def selectNextPending (steps : List StepRow) (appId : String) : Option StepRow :=
  (steps.filter (fun r => r.appId == appId && r.status == "pending")).foldl
    (fun acc r =>
      match acc with
      | none => some r
      | some m => if r.stepIndex < m.stepIndex then some r else some m)
    none

/-- The rows the claim query is allowed to return: a pending row of the app
whose `step_index` is minimal among the app's pending rows.  `ORDER BY
step_index LIMIT 1` guarantees nothing more — in particular no tie-break
among rows with equal `step_index`. -/
def validClaimQueryResult (steps : List StepRow) (appId : String) (r : StepRow) : Prop :=
  r ∈ steps ∧ r.appId = appId ∧ r.status = "pending" ∧
    ∀ x ∈ steps, x.appId = appId → x.status = "pending" → r.stepIndex ≤ x.stepIndex

/-- Embeds the status update by row id followed by `.select()`, returning
the new table and the number of affected rows.  The only filter is the row
id; the row's current status is not part of the condition. -/
def markStepStatusById (steps : List StepRow) (id : Nat) (newStatus : String) :
    List StepRow × Nat :=
  (steps.map (fun r => if r.id == id then { r with status := newStatus } else r),
   (steps.filter (fun r => r.id == id)).length)

/-- Embeds the payload resolution of the `executeStep` helper in
`run-step.ts`: with an `operation_id`, re-fetch the owning operation and take
the raw descriptor at position `step_index` (its own `type`, when present as a
property, survives the final object spread); without one, use the step row's
own columns, aliasing `slug` to `target`.  Thrown errors become `.error`
(the Supabase error text of the failed single-row fetch is abbreviated). -/
def resolvePayload (step : StepRow) (ops : List OpRow) : Except String HandlerStep :=
  match step.operationId with
  | some oid =>
    match ops.find? (fun o => o.id == oid) with
    | none => .error "Failed to fetch operation details: no rows returned"
    | some op =>
      match op.operations with
      | none => .error s!"Operation {oid} has invalid operations array"
      | some descs =>
        match descs.get? step.stepIndex with
        | none =>
          let i := step.stepIndex
          let n := descs.length
          .error s!"Step at index {i} not found in operation. Operation has {n} steps."
        | some d =>
          match jsOrStr d.type step.type with
          | none => .error "Step missing type field."
          | some t =>
            .ok { d with type := match d.type with | some t0 => some t0 | none => some t }
  | none =>
    match jsStr step.type with
    | none => .error "Step missing type field."
    | some t =>
      .ok { type := some t, target := step.target, slug := jsStr step.target }

/-- The `build_request_id` resolution of `run-step.ts`: the app's value, else
(when a step has an `operation_id`) the owning operation's value. -/
def resolveBuildRequestId (s : RunState) (app? : Option AppRow) (step : StepRow) :
    Option String :=
  match jsStr (app?.bind AppRow.buildRequestId) with
  | some b => some b
  | none =>
    match step.operationId with
    | some oid =>
      match s.ops.find? (fun o => o.id == oid) with
      | some op => jsStr op.buildRequestId
      | none => none
    | none => none

/-- Embeds one invocation of the `run-step` handler, with the claiming update
applied to `stepsAtClaim`: the state of `buildr_execution_steps` at the moment
the `update ... eq("id")` executes, which a concurrent caller may have changed
since the select ran on `s.steps`.  The sequential case is
`runStepOnce`, where both coincide.  Mirrors the source order: select one
pending step, mark it `processing` by id, resolve `user_id` and
`build_request_id`, resolve the payload, run the Executor, then mark
`applied`, or mark `failed` on a thrown error (the status update on failure
writes no error message, and the one on success touches only `status`). -/
def runStepOnceAt (appId : String) (s : RunState) (stepsAtClaim : List StepRow) :
    RunResult × RunState :=
  match selectNextPending s.steps appId with
  | none => (.done, s)
  | some step =>
    let claimed := markStepStatusById stepsAtClaim step.id "processing"
    if claimed.2 == 0 then
      (.error "Failed to mark step as processing: No rows updated", { s with steps := claimed.1 })
    else
      let s1 : RunState := { s with steps := claimed.1 }
      let app? := s1.apps.find? (fun a => a.id == appId)
      let buildRequestId := resolveBuildRequestId s1 app? step
      match jsStr (app?.bind AppRow.userId) with
      | none =>
        (.error s!"Could not determine user_id for app {appId}.", s1)
      | some uid =>
        match resolvePayload step s1.ops with
        | .error msg =>
          (.error s!"Step execution failed: {msg}",
           { s1 with steps := (markStepStatusById s1.steps step.id "failed").1 })
        | .ok payload =>
          let run := executeStepHandler appId payload buildRequestId (some uid) s1.specs
          if run.1.success then
            let s2 : RunState := { s1 with specs := run.2 }
            let applied2 := markStepStatusById s2.steps step.id "applied"
            if applied2.2 == 0 then
              (.error "Step execution failed: Failed to mark step as applied: No rows updated",
               { s2 with steps := (markStepStatusById applied2.1 step.id "failed").1 })
            else
              (.applied step, { s2 with steps := applied2.1 })
          else
            let msg := (jsStr run.1.error).getD "Step execution failed"
            let s2 : RunState := { s1 with specs := run.2 }
            (.error s!"Step execution failed: {msg}",
             { s2 with steps := (markStepStatusById s2.steps step.id "failed").1 })

/-- One invocation of the `run-step` handler with no concurrent interference
between the select and the claiming update. -/
def runStepOnce (appId : String) (s : RunState) : RunResult × RunState :=
  runStepOnceAt appId s s.steps

/-- The `target` resolution of the Step Expander:
`step.name || step.slug || step.componentName || step.target || step-<index>`
(the payloads in scope carry no `componentName` member). -/
def expanderTarget (d : HandlerStep) (index : Nat) : String :=
  (jsOrStr (jsOrStr d.name d.slug) d.target).getD s!"step-{index}"

/-- The rows the Step Expander inserts for one operation: one `pending` Step
per raw descriptor, preserving array order as `step_index`, with the type
defaulting to `create_component`. -/
def expanderRows (op : OpRow) (descs : List HandlerStep) (firstId : Nat) : List StepRow :=
  descs.enum.map (fun p =>
    { id := firstId + p.1
      appId := op.appId
      operationId := some op.id
      stepIndex := p.1
      type := some ((jsStr p.2.type).getD "create_component")
      target := some (expanderTarget p.2 p.1)
      status := "pending" })

/-- Embeds the per-operation body of `expand-operations.ts`: skip when the
`operations` array is missing or empty, skip when a Step already references
this `operation_id` for this app, else delete the app's orphaned Steps
(null `operation_id`) and insert one Step per descriptor.  Fresh row ids come
from the `nextId` counter (the database generates uuids). -/
def expandOneOp (s : RunState) (op : OpRow) : RunState :=
  match op.operations with
  | none => s
  | some descs =>
    if descs.isEmpty then s
    else if (s.steps.filter (fun r => r.operationId == some op.id && r.appId == op.appId)).length > 0 then
      s
    else
      let purged := s.steps.filter (fun r => !(r.appId == op.appId && r.operationId == none))
      let newRows := expanderRows op descs s.nextId
      { s with steps := purged ++ newRows, nextId := s.nextId + descs.length }

/-- Embeds the `expand-operations` handler body: fetch the pending operations
(by `operationId` when given, else by `appId`; created order is list order)
and expand each in turn. -/
def expandOperations (appId? : Option String) (operationId? : Option Nat) (s : RunState) :
    RunState :=
  let pending := s.ops.filter (fun o =>
    o.status == "pending" &&
      match operationId? with
      | some oid => o.id == oid
      | none =>
        match appId? with
        | some a => o.appId == a
        | none => true)
  pending.foldl expandOneOp s

/-- A raw descriptor of the bulk validate-then-apply path
(`buildr_app_operations.operations`); its members are consumed only by the
external validator module and by `applyOperations`, which the control-flow
embedding below takes as parameters. -/
structure BulkOperation where
  type : String := ""
deriving DecidableEq, Repr

/-- One row of `buildr_app_operations`, the operations table of the bulk
validate-then-apply path. -/
structure BulkOpRow where
  id : Nat
  appId : String
  userId : String := ""
  chatMessageId : Option String := none
  operations : List BulkOperation := []
  status : String := "pending"
  errorMessage : Option String := none
  appliedAt : Option String := none
deriving DecidableEq, Repr

/-- The state touched by the bulk path: `buildr_app_operations`,
`buildr_app_config` (same row shape as the Specification Store) and the
shared `buildr_app_versions` log. -/
structure BulkState where
  ops : List BulkOpRow
  configs : SpecDB := []
  versions : List VersionRow := []
deriving DecidableEq, Repr

/-- Embeds the update marking a `buildr_app_operations` row `failed` with an
error message. -/
def markBulkFailed (st : BulkState) (opId : Nat) (msg : Option String) : BulkState :=
  { st with ops := st.ops.map (fun o =>
      if o.id == opId then { o with status := "failed", errorMessage := msg } else o) }

/-- Embeds the update marking a `buildr_app_operations` row `applied` with
`applied_at` set (the error message is not cleared on this path). -/
def markBulkApplied (st : BulkState) (opId : Nat) (now : String) : BulkState :=
  { st with ops := st.ops.map (fun o =>
      if o.id == opId then { o with status := "applied", appliedAt := some now } else o) }

/-- Embeds `createVersionSnapshot` of the bulk endpoint: compute the next
version number (max + 1 per app), materialize the app's current config rows
into one snapshot document, append a `buildr_app_versions` row.  In this
pure model the storage never fails, so the swallow-on-error branch of the
source is not reachable. -/
def createVersionSnapshot (appId userId : String) (operationId : Nat)
    (chatMessageId : Option String) (st : BulkState) : BulkState :=
  let versionNumber := nextVersionNumber st.versions appId
  let snapshot := buildConfigSnapshot (st.configs.filter (fun r => r.appId == appId))
  { st with versions := st.versions ++
      [{ appId := appId, userId := userId, operationId := operationId,
         chatMessageId := chatMessageId, versionNumber := versionNumber,
         snapshot := snapshot }] }

/-- Embeds the per-operation body of the bulk endpoint, abstracting over the
two awaited calls whose module is outside this subsystem: `validate` stands
for `validateOperations` (read-only) and `applyOps` for `applyOperations`
(returns success plus the possibly-mutated state).  On validation failure the
operation is marked `failed` with the joined errors; on application failure
it is marked `failed` with the apply error; on success a version snapshot is
created and the operation is marked `applied` with `applied_at` set. -/
def processOneOperation
    (validate : BulkState → BulkOpRow → Bool × List String)
    (applyOps : BulkState → BulkOpRow → (Bool × Option String) × BulkState)
    (now : String) (st : BulkState) (op : BulkOpRow) : BulkState :=
  let v := validate st op
  if !v.1 then
    markBulkFailed st op.id (some (String.intercalate "; " v.2))
  else
    let r := applyOps st op
    if !r.1.1 then
      markBulkFailed r.2 op.id r.1.2
    else
      let st2 := createVersionSnapshot op.appId op.userId op.id op.chatMessageId r.2
      markBulkApplied st2 op.id now

/-- Embeds the bulk endpoint's loop for one app: fetch the pending operations
once (created order is list order) and process each in turn. -/
def processOperationsForApp
    (validate : BulkState → BulkOpRow → Bool × List String)
    (applyOps : BulkState → BulkOpRow → (Bool × Option String) × BulkState)
    (now : String) (appId : String) (st : BulkState) : BulkState :=
  let pending := st.ops.filter (fun o => o.status == "pending" && o.appId == appId)
  pending.foldl (processOneOperation validate applyOps now) st

/-! Helper lemmas about lowercasing and the alias table. -/

theorem toNat_ofNat_valid (n : Nat) (h : n.isValidChar) : (Char.ofNat n).toNat = n := by
  rw [Char.ofNat, dif_pos h]
  simp [Char.ofNatAux, Char.toNat, UInt32.toNat, BitVec.toNat_ofNatLt]

theorem lowerChar_idem (c : Char) : lowerChar (lowerChar c) = lowerChar c := by
  unfold lowerChar
  by_cases h : 65 ≤ c.toNat ∧ c.toNat ≤ 90
  · rw [if_pos h]
    have hv : (c.toNat + 32).isValidChar := by
      left
      omega
    have ht : (Char.ofNat (c.toNat + 32)).toNat = c.toNat + 32 := toNat_ofNat_valid _ hv
    rw [if_neg]
    rw [ht]
    omega
  · rw [if_neg h, if_neg h]

theorem lowerStr_idem (s : String) : lowerStr (lowerStr s) = lowerStr s := by
  unfold lowerStr
  simp [List.map_map, Function.comp_def, lowerChar_idem]

/-- Every output of the alias table is either the input itself or one of the
five canonical replacement types. -/
theorem aliasFieldType_eq_or_mem (t : String) :
    aliasFieldType t = t ∨
      aliasFieldType t ∈ (["text", "number", "timestamptz", "uuid", "jsonb"] : List String) := by
  unfold aliasFieldType
  split_ifs <;> first | (left ; rfl) | (right ; decide)

theorem normalizeFieldType_idem (s : String) :
    normalizeFieldType (normalizeFieldType s) = normalizeFieldType s := by
  rcases aliasFieldType_eq_or_mem (lowerStr s) with h | h
  · unfold normalizeFieldType
    rw [h, lowerStr_idem, h]
  · simp only [List.mem_cons] at h
    unfold normalizeFieldType
    rcases h with h | h | h | h | h | h
    case inr.inr.inr.inr.inr => exact (List.not_mem_nil _ h).elim
    all_goals rw [h] ; decide

/-- C8. The `create_model` field-type normalization lowercases its input and
applies the fixed alias table; the five aliases map as documented, the
normalization is idempotent on every input string, every already-canonical
type is a fixed point, and a string type is accepted by the validation loop
exactly when its normalization lies in the canonical set. -/
theorem createModel_type_normalization :
    (∀ s : String, normalizeFieldType s = aliasFieldType (lowerStr s)) ∧
    normalizeFieldType "INTEGER" = "number" ∧
    normalizeFieldType "integer" = "number" ∧
    normalizeFieldType "Integer" = "number" ∧
    normalizeFieldType "string" = "text" ∧
    normalizeFieldType "datetime" = "timestamptz" ∧
    normalizeFieldType "reference" = "uuid" ∧
    normalizeFieldType "authentication" = "jsonb" ∧
    (∀ c ∈ normalizedValidTypes, normalizeFieldType c = c) ∧
    (∀ s : String, normalizeFieldType (normalizeFieldType s) = normalizeFieldType s) ∧
    (∀ s : String, isAcceptedFieldType s = true ↔ normalizeFieldType s ∈ normalizedValidTypes) := by
  refine ⟨fun s => rfl, by decide, by decide, by decide, by decide, by decide, by decide,
    by decide, ?_, normalizeFieldType_idem, ?_⟩
  · intro c hc
    fin_cases hc <;> decide
  · intro s
    unfold isAcceptedFieldType
    constructor
    · intro h
      have h2 := (Bool.and_eq_true _ _).mp h
      have h3 := h2.2
      rw [List.contains_eq_any_beq] at h3
      simp only [List.any_eq_true, beq_iff_eq] at h3
      obtain ⟨x, hx, hxe⟩ := h3
      rw [hxe]
      exact hx
    · intro h
      have hne : normalizeFieldType s ≠ "" := by
        intro habs
        rw [habs] at h
        simp [normalizedValidTypes] at h
      simp only [Bool.and_eq_true, Bool.not_eq_true']
      refine ⟨by simpa using hne, ?_⟩
      rw [List.contains_eq_any_beq]
      simp only [List.any_eq_true, beq_iff_eq]
      exact ⟨normalizeFieldType s, h, rfl⟩

/-- Witness for `createModel_type_normalization` at concrete inputs. -/
theorem createModel_type_normalization_witness :
    normalizeFieldType "INTEGER" = "number" ∧ isAcceptedFieldType "Integer" = true :=
  ⟨createModel_type_normalization.2.1,
   (createModel_type_normalization.2.2.2.2.2.2.2.2.2.2 "Integer").mpr (by decide)⟩

/-- C6. Executing `create_model` when a data-model SpecEntry with the resolved
name already exists for the app returns failure, and the Specification Store
is returned unchanged: every failure path of `handleCreateModel` answers
before the insert. -/
theorem createModel_conflict_rejects_and_preserves_store
    (appId : String) (step : HandlerStep) (bid uid : Option String) (db : SpecDB)
    (name : String) (row : SpecRow)
    (hname : jsOrStr step.name step.target = some name)
    (hex : findSpec db appId "architecture" name = some row) :
    (handleCreateModel appId step bid uid db).1.success = false ∧
      (handleCreateModel appId step bid uid db).2 = db := by
  unfold handleCreateModel
  rw [hname]
  dsimp only
  split
  · exact ⟨rfl, rfl⟩
  · split
    · exact ⟨rfl, rfl⟩
    · rw [hex]
      exact ⟨rfl, rfl⟩

/-- Witness for `createModel_conflict_rejects_and_preserves_store`: a store
already holding model `M` rejects a second `create_model M`. -/
theorem createModel_conflict_witness :
    (handleCreateModel "a"
        { type := some "create_model", name := some "M",
          fields := some [{ name := some "f", type := some "text" }] }
        none none
        [{ appId := "a", configType := "architecture", configKey := "M",
           configValue := .modelV "M" [] none }]).1.success = false ∧
      (handleCreateModel "a"
        { type := some "create_model", name := some "M",
          fields := some [{ name := some "f", type := some "text" }] }
        none none
        [{ appId := "a", configType := "architecture", configKey := "M",
           configValue := .modelV "M" [] none }]).2 =
      [{ appId := "a", configType := "architecture", configKey := "M",
         configValue := .modelV "M" [] none }] :=
  createModel_conflict_rejects_and_preserves_store "a"
    { type := some "create_model", name := some "M",
      fields := some [{ name := some "f", type := some "text" }] }
    none none
    [{ appId := "a", configType := "architecture", configKey := "M",
       configValue := .modelV "M" [] none }]
    "M"
    { appId := "a", configType := "architecture", configKey := "M",
      configValue := .modelV "M" [] none }
    (by decide) (by decide)

/-- C9. Payload resolution of `run-step.ts`: a claimed Step with a non-null
`operation_id` is resolved by re-fetching the owning operation and taking the
raw descriptor at position `step_index` (the descriptor's own type wins), it
fails when no descriptor exists at that index, and a Step with a null
`operation_id` is resolved from its own stored columns (with `slug` aliased
from `target`). -/
theorem runStep_payload_resolution :
    (∀ (step : StepRow) (ops : List OpRow) (oid : Nat) (op : OpRow)
        (descs : List HandlerStep) (d : HandlerStep) (t : String),
      step.operationId = some oid →
      ops.find? (fun o => o.id == oid) = some op →
      op.operations = some descs →
      descs.get? step.stepIndex = some d →
      d.type = some t → t ≠ "" →
      resolvePayload step ops = .ok { d with type := some t }) ∧
    (∀ (step : StepRow) (ops : List OpRow) (oid : Nat) (op : OpRow)
        (descs : List HandlerStep),
      step.operationId = some oid →
      ops.find? (fun o => o.id == oid) = some op →
      op.operations = some descs →
      descs.get? step.stepIndex = none →
      ∃ msg, resolvePayload step ops = .error msg) ∧
    (∀ (step : StepRow) (ops : List OpRow) (t : String),
      step.operationId = none →
      jsStr step.type = some t →
      resolvePayload step ops =
        .ok { type := some t, target := step.target, slug := jsStr step.target }) := by
  refine ⟨?_, ?_, ?_⟩
  · intro step ops oid op descs d t hop hfind hops hget hd hne
    unfold resolvePayload
    rw [hop]
    dsimp only
    rw [hfind]
    dsimp only
    rw [hops]
    dsimp only
    rw [hget]
    dsimp only
    rw [hd]
    simp only [jsOrStr, jsStr]
    rw [if_neg hne]
  · intro step ops oid op descs hop hfind hops hget
    unfold resolvePayload
    rw [hop]
    dsimp only
    rw [hfind]
    dsimp only
    rw [hops]
    dsimp only
    rw [hget]
    exact ⟨_, rfl⟩
  · intro step ops t hop ht
    unfold resolvePayload
    rw [hop]
    dsimp only
    rw [ht]

/-- Witness for `runStep_payload_resolution`: a linked step resolves to the
stored descriptor, and a direct step resolves to its own columns. -/
theorem runStep_payload_resolution_witness :
    resolvePayload
        { id := 10, appId := "a", operationId := some 1, stepIndex := 0,
          type := some "create_model", target := some "M" }
        [{ id := 1, appId := "a",
           operations := some [{ type := some "create_model", name := some "M" }] }] =
      .ok { type := some "create_model", name := some "M" } ∧
    resolvePayload
        { id := 11, appId := "a", operationId := none, stepIndex := 0,
          type := some "create_page", target := some "home" }
        [] =
      .ok { type := some "create_page", target := some "home", slug := some "home" } :=
  ⟨runStep_payload_resolution.1
      { id := 10, appId := "a", operationId := some 1, stepIndex := 0,
        type := some "create_model", target := some "M" }
      [{ id := 1, appId := "a",
         operations := some [{ type := some "create_model", name := some "M" }] }]
      1
      { id := 1, appId := "a",
        operations := some [{ type := some "create_model", name := some "M" }] }
      [{ type := some "create_model", name := some "M" }]
      { type := some "create_model", name := some "M" }
      "create_model" rfl (by decide) rfl rfl rfl (by decide),
   runStep_payload_resolution.2.2
      { id := 11, appId := "a", operationId := none, stepIndex := 0,
        type := some "create_page", target := some "home" }
      [] "create_page" rfl (by decide)⟩

/-! Helper lemmas about the permission merge and the spec-store upsert. -/

theorem findSpec_upsert_self (db : SpecDB) (row : SpecRow) :
    findSpec (upsertSpec db row) row.appId row.configType row.configKey = some row := by
  have hrow : (fun x : SpecRow =>
      x.appId == row.appId && x.configType == row.configType && x.configKey == row.configKey)
      row = true := by simp
  induction db with
  | nil =>
    unfold upsertSpec findSpec
    exact List.find?_cons_of_pos _ hrow
  | cons r rest ih =>
    unfold upsertSpec
    split
    · unfold findSpec
      exact List.find?_cons_of_pos _ hrow
    · next h =>
      unfold findSpec
      rw [List.find?_cons_of_neg _ (by simpa using h)]
      exact ih

theorem mergeOneRule_no_match (l : List Permission) (p : Permission)
    (h : ∀ r ∈ l, permMatchKey r p = false) :
    mergeOneRule l p = l ++ [p] := by
  induction l with
  | nil => rfl
  | cons r rest ih =>
    unfold mergeOneRule
    rw [h r (List.mem_cons_self _ _), if_neg (by simp)]
    rw [ih (fun x hx => h x (List.mem_cons_of_mem _ hx))]
    rfl

theorem mergeOneRule_match_at_end (l : List Permission) (p : Permission)
    (hp : permMatchKey p p = true)
    (h : ∀ r ∈ l, permMatchKey r p = false) :
    mergeOneRule (l ++ [p]) p = l ++ [p] := by
  induction l with
  | nil =>
    unfold mergeOneRule
    simp [hp]
  | cons r rest ih =>
    unfold mergeOneRule
    rw [List.cons_append]
    dsimp only
    rw [h r (List.mem_cons_self _ _), if_neg (by simp)]
    rw [ih (fun x hx => h x (List.mem_cons_of_mem _ hx))]

theorem permMatchKey_self_explicit (resource action role : String) (hrole : role ≠ "") :
    permMatchKey
      { resource := some resource, action := some action, role := some role }
      { resource := some resource, action := some action, role := some role } = true := by
  simp [permMatchKey, defaultedRole, jsStr, hrole]

theorem permMatchKey_none_role (r p : Permission) (h : r.role = none) :
    permMatchKey r p = false := by
  unfold permMatchKey
  rw [h]
  simp

theorem mem_validRoles_ne_empty (role : String) (h : role ∈ validRoles) : role ≠ "" := by
  fin_cases h <;> decide

theorem mem_validActions_ne_empty (a : String) (h : a ∈ validActions) : a ≠ "" := by
  fin_cases h <;> decide

theorem contains_of_mem {a : String} {l : List String} (h : a ∈ l) : l.contains a = true := by
  rw [List.contains_eq_any_beq]
  simp only [List.any_eq_true, beq_iff_eq]
  exact ⟨a, h, rfl⟩

theorem checkPermissionList_explicit_ok (resource action role : String)
    (hres : resource ≠ "") (hact : action ∈ validActions) (hrole : role ∈ validRoles) :
    checkPermissionList
      [{ resource := some resource, action := some action, role := some role }] = none := by
  simp [checkPermissionList, jsStr, hres, mem_validActions_ne_empty action hact,
    mem_validRoles_ne_empty role hrole, contains_of_mem hact, contains_of_mem hrole, hact, hrole]

theorem checkPermissionList_noRole_ok (resource action : String)
    (hres : resource ≠ "") (hact : action ∈ validActions) :
    checkPermissionList [{ resource := some resource, action := some action, role := none }] = none := by
  simp [checkPermissionList, jsStr, hres, mem_validActions_ne_empty action hact,
    contains_of_mem hact, hact]

theorem handleSetPermissions_run (appId : String) (step : HandlerStep)
    (bid uid : Option String) (db : SpecDB) (incoming : List Permission)
    (h1 : resolvePermissionList step = some incoming)
    (h2 : checkPermissionList incoming = none) :
    handleSetPermissions appId step bid uid db =
      ({ success := true },
       upsertSpec db
         { appId := appId, configType := "permissions", configKey := "rules",
           configValue := .rulesV (mergeRules (storedRules db appId) incoming),
           userId := uid, buildRequestId := bid }) := by
  unfold handleSetPermissions
  rw [h1]
  dsimp only
  rw [h2]

theorem storedRules_after_run (db : SpecDB) (appId : String)
    (bid uid : Option String) (merged : List Permission) :
    storedRules
      (upsertSpec db
        { appId := appId, configType := "permissions", configKey := "rules",
          configValue := .rulesV merged, userId := uid, buildRequestId := bid }) appId
      = merged := by
  unfold storedRules
  rw [findSpec_upsert_self db
    { appId := appId, configType := "permissions", configKey := "rules",
      configValue := .rulesV merged, userId := uid, buildRequestId := bid }]
  rfl

/-- C7. Submitting `set_permissions` twice with the same explicit
`(resource, action, role)` triple (for example orders/read/user) leaves
exactly one stored rule for that triple: the first submission appends it and
the second replaces the match instead of appending a duplicate.  The starting
ruleset is assumed to hold no rule already matching the triple. -/
theorem setPermissions_same_triple_twice_one_rule
    (appId resource action role : String) (step : HandlerStep)
    (bid uid : Option String) (db : SpecDB)
    (hstep : step.permissions =
      some [{ resource := some resource, action := some action, role := some role }])
    (hres : resource ≠ "")
    (hact : action ∈ validActions)
    (hrole : role ∈ validRoles)
    (hnone : ∀ r ∈ storedRules db appId,
      permMatchKey r
        { resource := some resource, action := some action, role := some role } = false) :
    (handleSetPermissions appId step bid uid db).1.success = true ∧
    (handleSetPermissions appId step bid uid
        (handleSetPermissions appId step bid uid db).2).1.success = true ∧
    ((storedRules
        (handleSetPermissions appId step bid uid
          (handleSetPermissions appId step bid uid db).2).2 appId).filter
      (fun r =>
        r == { resource := some resource, action := some action, role := some role })).length
      = 1 := by
  set p : Permission :=
    { resource := some resource, action := some action, role := some role } with hp
  have hroleNe : role ≠ "" := mem_validRoles_ne_empty role hrole
  have hkey : permMatchKey p p = true := permMatchKey_self_explicit resource action role hroleNe
  have hresolve : resolvePermissionList step = some [p] := by
    unfold resolvePermissionList
    rw [hstep]
  have hcheck : checkPermissionList [p] = none :=
    checkPermissionList_explicit_ok resource action role hres hact hrole
  have hrun1 := handleSetPermissions_run appId step bid uid db [p] hresolve hcheck
  have hmerge1 : mergeRules (storedRules db appId) [p] = storedRules db appId ++ [p] := by
    unfold mergeRules
    exact mergeOneRule_no_match _ p hnone
  have hstored1 :
      storedRules (handleSetPermissions appId step bid uid db).2 appId =
        storedRules db appId ++ [p] := by
    rw [hrun1]
    dsimp only
    rw [hmerge1] at hrun1 ⊢
    exact storedRules_after_run db appId bid uid _
  have hrun2 := handleSetPermissions_run appId step bid uid
    (handleSetPermissions appId step bid uid db).2 [p] hresolve hcheck
  have hmerge2 :
      mergeRules (storedRules (handleSetPermissions appId step bid uid db).2 appId) [p] =
        storedRules db appId ++ [p] := by
    rw [hstored1]
    unfold mergeRules
    dsimp only [List.foldl]
    exact mergeOneRule_match_at_end _ p hkey hnone
  have hstored2 :
      storedRules
        (handleSetPermissions appId step bid uid
          (handleSetPermissions appId step bid uid db).2).2 appId =
        storedRules db appId ++ [p] := by
    rw [hrun2]
    dsimp only
    rw [hmerge2]
    exact storedRules_after_run _ appId bid uid _
  refine ⟨by rw [hrun1], by rw [hrun2], ?_⟩
  rw [hstored2, List.filter_append]
  have hbase : (storedRules db appId).filter (fun r => r == p) = [] := by
    rw [List.filter_eq_nil_iff]
    intro r hr hbeq
    have hr2 : r = p := by
      exact eq_of_beq hbeq
    have := hnone r hr
    rw [hr2] at this
    rw [this] at hkey
    exact Bool.false_ne_true hkey
  rw [hbase]
  simp

/-- Witness for `setPermissions_same_triple_twice_one_rule`: two runs of the
orders/read/user submission from an empty store leave one rule. -/
theorem setPermissions_same_triple_witness :
    (handleSetPermissions "a"
        { type := some "set_permissions",
          permissions := some
            [{ resource := some "orders", action := some "read", role := some "user" }] }
        none none []).1.success = true ∧
    (handleSetPermissions "a"
        { type := some "set_permissions",
          permissions := some
            [{ resource := some "orders", action := some "read", role := some "user" }] }
        none none
        (handleSetPermissions "a"
          { type := some "set_permissions",
            permissions := some
              [{ resource := some "orders", action := some "read", role := some "user" }] }
          none none []).2).1.success = true ∧
    ((storedRules
        (handleSetPermissions "a"
          { type := some "set_permissions",
            permissions := some
              [{ resource := some "orders", action := some "read", role := some "user" }] }
          none none
          (handleSetPermissions "a"
            { type := some "set_permissions",
              permissions := some
                [{ resource := some "orders", action := some "read", role := some "user" }] }
            none none []).2).2 "a").filter
      (fun r =>
        r == { resource := some "orders", action := some "read", role := some "user" })).length
      = 1 :=
  setPermissions_same_triple_twice_one_rule "a" "orders" "read" "user"
    { type := some "set_permissions",
      permissions := some
        [{ resource := some "orders", action := some "read", role := some "user" }] }
    none none [] rfl (by decide) (by decide) (by decide)
    (by intro r hr; simp [storedRules, findSpec] at hr)

/-- C10. `set_permissions` accepts an entry whose `role` is omitted (the role
is validated only when present) and stores it verbatim with no default role
filled in; because the merge-match compares a stored rule's `role` to the
incoming role defaulted to `"user"`, a stored role-less rule never matches
any incoming entry, so an identical role-less resubmission is appended as a
second rule. -/
theorem setPermissions_roleless_entry_appended :
    (∀ (r p : Permission), r.role = none → permMatchKey r p = false) ∧
    (∀ (resource action : String), resource ≠ "" → action ∈ validActions →
      checkPermissionList
        [{ resource := some resource, action := some action, role := none }] = none) ∧
    (∀ (appId resource action : String) (step : HandlerStep)
        (bid uid : Option String) (db : SpecDB),
      step.permissions =
        some [{ resource := some resource, action := some action, role := none }] →
      resource ≠ "" → action ∈ validActions →
      (∀ r ∈ storedRules db appId,
        permMatchKey r
          { resource := some resource, action := some action, role := none } = false) →
      (handleSetPermissions appId step bid uid db).1.success = true ∧
      storedRules (handleSetPermissions appId step bid uid db).2 appId =
        storedRules db appId ++
          [{ resource := some resource, action := some action, role := none }] ∧
      storedRules
          (handleSetPermissions appId step bid uid
            (handleSetPermissions appId step bid uid db).2).2 appId =
        storedRules db appId ++
          [{ resource := some resource, action := some action, role := none },
           { resource := some resource, action := some action, role := none }]) := by
  refine ⟨permMatchKey_none_role, checkPermissionList_noRole_ok, ?_⟩
  intro appId resource action step bid uid db hstep hres hact hnone
  set p0 : Permission :=
    { resource := some resource, action := some action, role := none } with hp0
  have hresolve : resolvePermissionList step = some [p0] := by
    unfold resolvePermissionList
    rw [hstep]
  have hcheck : checkPermissionList [p0] = none :=
    checkPermissionList_noRole_ok resource action hres hact
  have hrun1 := handleSetPermissions_run appId step bid uid db [p0] hresolve hcheck
  have hmerge1 : mergeRules (storedRules db appId) [p0] = storedRules db appId ++ [p0] := by
    unfold mergeRules
    exact mergeOneRule_no_match _ p0 hnone
  have hstored1 :
      storedRules (handleSetPermissions appId step bid uid db).2 appId =
        storedRules db appId ++ [p0] := by
    rw [hrun1]
    dsimp only
    rw [hmerge1]
    exact storedRules_after_run db appId bid uid _
  have hrun2 := handleSetPermissions_run appId step bid uid
    (handleSetPermissions appId step bid uid db).2 [p0] hresolve hcheck
  have hnone2 : ∀ r ∈ storedRules db appId ++ [p0], permMatchKey r p0 = false := by
    intro r hr
    rcases List.mem_append.mp hr with hr | hr
    · exact hnone r hr
    · rw [List.mem_singleton.mp hr]
      exact permMatchKey_none_role p0 p0 rfl
  have hmerge2 :
      mergeRules (storedRules (handleSetPermissions appId step bid uid db).2 appId) [p0] =
        storedRules db appId ++ [p0, p0] := by
    rw [hstored1]
    unfold mergeRules
    dsimp only [List.foldl]
    rw [mergeOneRule_no_match _ p0 hnone2]
    simp
  have hstored2 :
      storedRules
        (handleSetPermissions appId step bid uid
          (handleSetPermissions appId step bid uid db).2).2 appId =
        storedRules db appId ++ [p0, p0] := by
    rw [hrun2]
    dsimp only
    rw [hmerge2]
    exact storedRules_after_run _ appId bid uid _
  exact ⟨by rw [hrun1], hstored1, hstored2⟩

/-- Witness for `setPermissions_roleless_entry_appended`: a role-less
orders/read entry submitted twice from an empty store yields two rules. -/
theorem setPermissions_roleless_witness :
    (handleSetPermissions "a"
        { type := some "set_permissions",
          permissions := some [{ resource := some "orders", action := some "read" }] }
        none none []).1.success = true ∧
    storedRules
        (handleSetPermissions "a"
          { type := some "set_permissions",
            permissions := some [{ resource := some "orders", action := some "read" }] }
          none none []).2 "a" =
      [{ resource := some "orders", action := some "read", role := none }] ∧
    storedRules
        (handleSetPermissions "a"
          { type := some "set_permissions",
            permissions := some [{ resource := some "orders", action := some "read" }] }
          none none
          (handleSetPermissions "a"
            { type := some "set_permissions",
              permissions := some [{ resource := some "orders", action := some "read" }] }
            none none []).2).2 "a" =
      [{ resource := some "orders", action := some "read", role := none },
       { resource := some "orders", action := some "read", role := none }] :=
  setPermissions_roleless_entry_appended.2.2 "a" "orders" "read"
    { type := some "set_permissions",
      permissions := some [{ resource := some "orders", action := some "read" }] }
    none none [] rfl (by decide) (by decide)
    (by intro r hr; simp [storedRules, findSpec] at hr)

/-- C2 counterexample. The claiming update of `run-step.ts` filters only on
the row id, so it transitions even a Step whose status is `failed` to
`processing` (and reports one affected row): the claim that the update only
affects a Step whose status is still `pending` is false at this input. -/
theorem runStep_claim_update_counterexample :
    (markStepStatusById
        [{ id := 12, appId := "c", operationId := none, stepIndex := 0,
           type := none, target := none, status := "failed", errorMessage := none }]
        12 "processing") =
      ([{ id := 12, appId := "c", operationId := none, stepIndex := 0,
          type := none, target := none, status := "processing", errorMessage := none }], 1) := by
  decide

/-- C2 amended. The claiming update conditions only on the claimed Step's id
(a non-pending Step with that id is transitioned to `processing` all the
same), and when the update affects zero rows the invocation returns an error
response instead of re-selecting another pending Step. -/
theorem runStep_claim_conditions_on_id_only :
    (∀ (steps : List StepRow) (r : StepRow), r ∈ steps → r.status = "failed" →
      { r with status := "processing" } ∈ (markStepStatusById steps r.id "processing").1) ∧
    (∀ (appId : String) (s : RunState) (stepsAtClaim : List StepRow) (a : StepRow),
      selectNextPending s.steps appId = some a →
      (∀ r ∈ stepsAtClaim, r.id ≠ a.id) →
      (runStepOnceAt appId s stepsAtClaim).1 =
        .error "Failed to mark step as processing: No rows updated" ∧
      (runStepOnceAt appId s stepsAtClaim).2.steps = stepsAtClaim) := by
  constructor
  · intro steps r hr _
    unfold markStepStatusById
    dsimp only
    have : ({ r with status := "processing" } : StepRow) =
        (fun x : StepRow => if x.id == r.id then { x with status := "processing" } else x) r := by
      simp
    rw [this]
    exact List.mem_map_of_mem _ hr
  · intro appId s stepsAtClaim a hsel hid
    have hfilter : stepsAtClaim.filter (fun r => r.id == a.id) = [] := by
      rw [List.filter_eq_nil_iff]
      intro r hr
      simp only [beq_iff_eq]
      exact hid r hr
    have hmap : stepsAtClaim.map
        (fun r => if r.id == a.id then { r with status := "processing" } else r) =
        stepsAtClaim := by
      conv_rhs => rw [← List.map_id stepsAtClaim]
      refine List.map_congr_left ?_
      intro x hx
      rw [if_neg]
      · rfl
      · simp only [beq_iff_eq]
        exact hid x hx
    unfold runStepOnceAt
    rw [hsel]
    dsimp only
    unfold markStepStatusById
    dsimp only
    rw [hfilter, hmap]
    exact ⟨rfl, rfl⟩

/-- Witness for `runStep_claim_conditions_on_id_only`: a concurrent deletion
of the selected step between select and update yields the error response. -/
theorem runStep_claim_conditions_witness :
    (runStepOnceAt "a"
        { steps := [{ id := 1, appId := "a", operationId := none, stepIndex := 0,
                      type := some "create_page", target := some "home",
                      status := "pending", errorMessage := none }],
          ops := [], apps := [], specs := [], versions := [], nextId := 0 }
        []).1 = .error "Failed to mark step as processing: No rows updated" ∧
    ({ id := 2, appId := "a", operationId := none, stepIndex := 0,
       type := none, target := none, status := "processing", errorMessage := none } : StepRow) ∈
      (markStepStatusById
        [{ id := 2, appId := "a", operationId := none, stepIndex := 0,
           type := none, target := none, status := "failed", errorMessage := none }]
        2 "processing").1 :=
  ⟨(runStep_claim_conditions_on_id_only.2 "a"
      { steps := [{ id := 1, appId := "a", operationId := none, stepIndex := 0,
                    type := some "create_page", target := some "home",
                    status := "pending", errorMessage := none }],
        ops := [], apps := [], specs := [], versions := [], nextId := 0 }
      []
      { id := 1, appId := "a", operationId := none, stepIndex := 0,
        type := some "create_page", target := some "home",
        status := "pending", errorMessage := none }
      (by decide) (by intro r hr; exact absurd hr (List.not_mem_nil r))).1,
   runStep_claim_conditions_on_id_only.1
      [{ id := 2, appId := "a", operationId := none, stepIndex := 0,
         type := none, target := none, status := "failed", errorMessage := none }]
      { id := 2, appId := "a", operationId := none, stepIndex := 0,
        type := none, target := none, status := "failed", errorMessage := none }
      (List.mem_singleton_self _) rfl⟩

/-- Status updates in the Run Loop write only the `status` column, so the
`error_message` column of every row is preserved. -/
theorem map_errorMessage_mark (l : List StepRow) (id : Nat) (st : String) :
    ((markStepStatusById l id st).1).map StepRow.errorMessage =
      l.map StepRow.errorMessage := by
  unfold markStepStatusById
  dsimp only
  rw [List.map_map]
  refine List.map_congr_left ?_
  intro x _
  dsimp only [Function.comp]
  split <;> rfl

/-- C4 counterexample. A claimed Step whose Executor run fails with
`create_model step missing required field: fields ...` is marked `failed`,
but its `errorMessage` still holds the stale value `old boom` instead of the
reported message: the error is not recorded verbatim. -/
theorem runStep_failure_error_not_recorded_counterexample :
    (runStepOnce "b"
        { steps := [{ id := 11, appId := "b", operationId := none, stepIndex := 0,
                      type := some "create_model", target := some "M",
                      status := "pending", errorMessage := some "old boom" }],
          ops := [], apps := [{ id := "b", userId := some "u" }], specs := [],
          versions := [], nextId := 0 }).1 =
      .error "Step execution failed: create_model step missing required field: fields (array) in step.fields or step.details.fields" ∧
    (runStepOnce "b"
        { steps := [{ id := 11, appId := "b", operationId := none, stepIndex := 0,
                      type := some "create_model", target := some "M",
                      status := "pending", errorMessage := some "old boom" }],
          ops := [], apps := [{ id := "b", userId := some "u" }], specs := [],
          versions := [], nextId := 0 }).2.steps =
      [{ id := 11, appId := "b", operationId := none, stepIndex := 0,
         type := some "create_model", target := some "M",
         status := "failed", errorMessage := some "old boom" }] := by
  decide

/-- C4 amended. `run-step.ts` updates only the `status` column: on Executor
failure the Step is marked `failed` with its `errorMessage` left unchanged
(the reported message is not recorded), and on success it is marked `applied`
with any prior error left in place rather than cleared.  The first conjunct
shows no invocation ever changes any row's `errorMessage`; the second and
third exhibit the failure and success transitions. -/
theorem runStep_status_only_updates :
    (∀ (appId : String) (s : RunState),
      ((runStepOnce appId s).2.steps).map StepRow.errorMessage =
        s.steps.map StepRow.errorMessage) ∧
    (runStepOnce "b"
        { steps := [{ id := 11, appId := "b", operationId := none, stepIndex := 0,
                      type := some "create_model", target := some "M",
                      status := "pending", errorMessage := some "old boom" }],
          ops := [], apps := [{ id := "b", userId := some "u" }], specs := [],
          versions := [], nextId := 0 }).2.steps =
      [{ id := 11, appId := "b", operationId := none, stepIndex := 0,
         type := some "create_model", target := some "M",
         status := "failed", errorMessage := some "old boom" }] ∧
    (runStepOnce "d"
        { steps := [{ id := 13, appId := "d", operationId := none, stepIndex := 0,
                      type := some "create_page", target := some "home",
                      status := "pending", errorMessage := some "stale" }],
          ops := [], apps := [{ id := "d", userId := some "u" }], specs := [],
          versions := [], nextId := 0 }).2.steps =
      [{ id := 13, appId := "d", operationId := none, stepIndex := 0,
         type := some "create_page", target := some "home",
         status := "applied", errorMessage := some "stale" }] := by
  refine ⟨?_, by decide, by decide⟩
  intro appId s
  unfold runStepOnce runStepOnceAt
  cases hsel : selectNextPending s.steps appId with
  | none => rfl
  | some a =>
    dsimp only
    repeat' split
    all_goals
      simp only [map_errorMessage_mark]

/-- The raw descriptor of the single-step demonstration operation. -/
def demoDesc : HandlerStep :=
  { type := some "create_model", name := some "M",
    fields := some [{ name := some "f", type := some "text" }] }

/-- The demonstration operation: one pending `buildr_operations_log` row
holding `demoDesc`. -/
def demoOp : OpRow :=
  { id := 1, appId := "a", userId := "u", operations := some [demoDesc] }

/-- The single pending execution Step of `demoOp`. -/
def demoStep : StepRow :=
  { id := 10, appId := "a", operationId := some 1, stepIndex := 0,
    type := some "create_model", target := some "M" }

/-- The demonstration Run Loop state: operation 1 with its one pending Step,
an empty Specification Store and an empty versions log. -/
def demoState : RunState :=
  { steps := [demoStep], ops := [demoOp], apps := [{ id := "a", userId := some "u" }],
    specs := [], versions := [], nextId := 0 }

/-- C1 counterexample. The per-step Run Loop finishes the last (and only)
Step of operation 1 successfully, leaving no pending Steps, yet it records no
VersionSnapshot and never touches the Operation row: its status stays
`pending` and `applied_at` stays null, so the claim fails on this path. -/
theorem runStep_completion_no_snapshot_counterexample :
    (runStepOnce "a" demoState).1 = .applied demoStep ∧
    (runStepOnce "a" demoState).2.versions = [] ∧
    (runStepOnce "a" demoState).2.ops = [demoOp] ∧
    demoOp.status = "pending" ∧
    demoOp.appliedAt = none ∧
    selectNextPending (runStepOnce "a" demoState).2.steps "a" = none := by
  refine ⟨by decide, by decide, by decide, by decide, by decide, by decide⟩

/-- C1 amended. On the bulk validate-then-apply path, an Operation that
validates and applies successfully gets exactly one appended VersionSnapshot
for its app (numbered max + 1) and is marked `applied` with `applied_at` set;
the per-step Run Loop, by contrast, never writes the versions log and never
changes any Operation row, regardless of how many Steps it completes. -/
theorem operation_completion_snapshot_paths :
    (∀ (validate : BulkState → BulkOpRow → Bool × List String)
        (applyOps : BulkState → BulkOpRow → (Bool × Option String) × BulkState)
        (now : String) (st : BulkState) (op : BulkOpRow),
      (validate st op).1 = true →
      (applyOps st op).1.1 = true →
      (processOneOperation validate applyOps now st op).versions =
        (applyOps st op).2.versions ++
          [{ appId := op.appId, userId := op.userId, operationId := op.id,
             chatMessageId := op.chatMessageId,
             versionNumber := nextVersionNumber (applyOps st op).2.versions op.appId,
             snapshot := buildConfigSnapshot
               ((applyOps st op).2.configs.filter (fun r => r.appId == op.appId)) }] ∧
      (∀ o ∈ (processOneOperation validate applyOps now st op).ops, o.id = op.id →
        o.status = "applied" ∧ o.appliedAt = some now)) ∧
    (∀ (appId : String) (s : RunState) (stepsAtClaim : List StepRow),
      (runStepOnceAt appId s stepsAtClaim).2.versions = s.versions ∧
      (runStepOnceAt appId s stepsAtClaim).2.ops = s.ops) := by
  constructor
  · intro validate applyOps now st op hval happ
    unfold processOneOperation
    rcases hv : validate st op with ⟨val, errs⟩
    rcases ha : applyOps st op with ⟨⟨ok, err⟩, st1⟩
    rw [hv] at hval
    rw [ha] at happ
    dsimp only at hval happ
    subst hval
    subst happ
    dsimp only
    split
    · next h => simp at h
    · constructor
      · rfl
      · intro o ho hoid
        unfold markBulkApplied at ho
        dsimp only at ho
        obtain ⟨x, _, hxo⟩ := List.mem_map.mp ho
        by_cases hx : (x.id == op.id) = true
        · rw [if_pos hx] at hxo
          rw [← hxo]
          exact ⟨rfl, rfl⟩
        · rw [if_neg hx] at hxo
          rw [← hxo] at hoid
          exact absurd (beq_iff_eq.mpr hoid) hx
  · intro appId s stepsAtClaim
    unfold runStepOnceAt
    cases hsel : selectNextPending s.steps appId with
    | none => exact ⟨rfl, rfl⟩
    | some a =>
      dsimp only
      repeat' split
      all_goals exact ⟨rfl, rfl⟩

/-- Witness for `operation_completion_snapshot_paths` with a trivially
succeeding validator and applier on one pending operation, and one Run Loop
invocation on an empty app. -/
theorem operation_completion_snapshot_witness :
    (processOneOperation (fun _ _ => (true, [])) (fun st _ => ((true, none), st)) "now"
        { ops := [{ id := 1, appId := "a", userId := "u" }], configs := [], versions := [] }
        { id := 1, appId := "a", userId := "u" }).versions =
      [{ appId := "a", userId := "u", operationId := 1, chatMessageId := none,
         versionNumber := 1, snapshot := {} }] ∧
    (runStepOnceAt "a"
        { steps := [], ops := [], apps := [], specs := [], versions := [], nextId := 0 }
        []).2.versions = [] := by
  have h := operation_completion_snapshot_paths
  refine ⟨?_, (h.2 "a"
    { steps := [], ops := [], apps := [], specs := [], versions := [], nextId := 0 } []).1⟩
  have h1 := (h.1 (fun _ _ => (true, [])) (fun st _ => ((true, none), st)) "now"
    { ops := [{ id := 1, appId := "a", userId := "u" }], configs := [], versions := [] }
    { id := 1, appId := "a", userId := "u" } rfl rfl).1
  rw [h1]
  decide

/-! Helper lemmas for the Step Expander. -/

/-- Some Step already references this operation for this app. -/
def LinkedP (steps : List StepRow) (oid : Nat) (appId : String) : Prop :=
  ∃ r, r ∈ steps ∧ r.operationId = some oid ∧ r.appId = appId

/-- The expander will skip this operation: missing or empty descriptor array,
or Steps already linked to it. -/
def SkipP (s : RunState) (op : OpRow) : Prop :=
  op.operations = none ∨
    (∃ descs, op.operations = some descs ∧ descs.isEmpty = true) ∨
    LinkedP s.steps op.id op.appId

theorem expandOneOp_skip (s : RunState) (op : OpRow) (h : SkipP s op) :
    expandOneOp s op = s := by
  unfold expandOneOp
  rcases h with h | ⟨descs, hd, he⟩ | ⟨r, hr, hrop, hrapp⟩
  · rw [h]
  · rw [hd]
    dsimp only
    rw [if_pos he]
  · cases hops : op.operations with
    | none => rfl
    | some descs =>
      dsimp only
      by_cases he : descs.isEmpty = true
      · rw [if_pos he]
      · rw [if_neg he, if_pos]
        have hmem : r ∈ s.steps.filter
            (fun x => x.operationId == some op.id && x.appId == op.appId) := by
          rw [List.mem_filter]
          refine ⟨hr, ?_⟩
          rw [hrop, hrapp]
          simp
        exact List.length_pos.mpr (List.ne_nil_of_mem hmem)

theorem expandOneOp_establishes (s : RunState) (op : OpRow) :
    SkipP (expandOneOp s op) op := by
  cases hops : op.operations with
  | none => exact Or.inl hops
  | some descs =>
    by_cases he : descs.isEmpty = true
    · exact Or.inr (Or.inl ⟨descs, hops, he⟩)
    · refine Or.inr (Or.inr ?_)
      unfold expandOneOp
      rw [hops]
      dsimp only
      rw [if_neg he]
      by_cases hl : (s.steps.filter
          (fun x => x.operationId == some op.id && x.appId == op.appId)).length > 0
      · rw [if_pos hl]
        obtain ⟨r, hr⟩ := List.exists_mem_of_length_pos hl
        rw [List.mem_filter] at hr
        obtain ⟨hmem, hpred⟩ := hr
        simp only [Bool.and_eq_true, beq_iff_eq] at hpred
        exact ⟨r, hmem, hpred.1, hpred.2⟩
      · rw [if_neg hl]
        cases descs with
        | nil => exact absurd rfl he
        | cons d ds =>
          have hmem : ((0, d) : Nat × HandlerStep) ∈ (d :: ds).enum := by
            rw [List.enum_cons]
            exact List.mem_cons_self _ _
          exact ⟨_, List.mem_append_right _ (List.mem_map_of_mem _ hmem), rfl, rfl⟩

theorem expandOneOp_preserves_linked (s : RunState) (op : OpRow) (oid : Nat)
    (appId : String) (h : LinkedP s.steps oid appId) :
    LinkedP (expandOneOp s op).steps oid appId := by
  obtain ⟨r, hr, hrop, hrapp⟩ := h
  unfold expandOneOp
  cases hops : op.operations with
  | none => exact ⟨r, hr, hrop, hrapp⟩
  | some descs =>
    dsimp only
    by_cases he : descs.isEmpty = true
    · rw [if_pos he]
      exact ⟨r, hr, hrop, hrapp⟩
    · rw [if_neg he]
      by_cases hl : (s.steps.filter
          (fun x => x.operationId == some op.id && x.appId == op.appId)).length > 0
      · rw [if_pos hl]
        exact ⟨r, hr, hrop, hrapp⟩
      · rw [if_neg hl]
        refine ⟨r, ?_, hrop, hrapp⟩
        dsimp only
        refine List.mem_append_left _ ?_
        rw [List.mem_filter]
        refine ⟨hr, ?_⟩
        rw [hrop]
        simp

theorem expandOneOp_preserves_skip (s : RunState) (op op' : OpRow) (h : SkipP s op) :
    SkipP (expandOneOp s op') op := by
  rcases h with h | h | h
  · exact Or.inl h
  · exact Or.inr (Or.inl h)
  · exact Or.inr (Or.inr (expandOneOp_preserves_linked s op' op.id op.appId h))

theorem foldl_expand_preserves_skip (l : List OpRow) (s : RunState) (op : OpRow)
    (h : SkipP s op) : SkipP (l.foldl expandOneOp s) op := by
  induction l generalizing s with
  | nil => exact h
  | cons x xs ih => exact ih _ (expandOneOp_preserves_skip s op x h)

theorem foldl_expand_all_skip (l : List OpRow) (s : RunState) :
    ∀ op ∈ l, SkipP (l.foldl expandOneOp s) op := by
  induction l generalizing s with
  | nil => intro op h; exact absurd h (List.not_mem_nil op)
  | cons x xs ih =>
    intro op hop
    rcases List.mem_cons.mp hop with hop | hop
    · subst hop
      exact foldl_expand_preserves_skip xs (expandOneOp s op) op (expandOneOp_establishes s op)
    · exact ih (expandOneOp s x) op hop

theorem foldl_expand_id_of_skip (l : List OpRow) (s : RunState)
    (h : ∀ op ∈ l, SkipP s op) : l.foldl expandOneOp s = s := by
  induction l with
  | nil => rfl
  | cons x xs ih =>
    have hx : expandOneOp s x = s := expandOneOp_skip s x (h x (List.mem_cons_self _ _))
    dsimp only [List.foldl]
    rw [hx]
    exact ih (fun op hop => h op (List.mem_cons_of_mem _ hop))

theorem expandOneOp_ops (s : RunState) (op : OpRow) : (expandOneOp s op).ops = s.ops := by
  unfold expandOneOp
  repeat' split
  all_goals rfl

theorem foldl_expand_ops (l : List OpRow) (s : RunState) :
    (l.foldl expandOneOp s).ops = s.ops := by
  induction l generalizing s with
  | nil => rfl
  | cons x xs ih => rw [List.foldl_cons, ih, expandOneOp_ops]

/-- C5. Running the Step Expander on an Operation that already has a Step
linked via `operation_id` changes nothing (no Steps created, none deleted);
the whole endpoint is idempotent, so a second expansion yields the identical
Steps with no duplicates; and whenever an Operation is actually re-expanded,
every orphaned Step of that app (null `operation_id`) is deleted first, so
none survives. -/
theorem expander_idempotent_and_purges_orphans :
    (∀ (s : RunState) (op : OpRow), LinkedP s.steps op.id op.appId →
      expandOneOp s op = s) ∧
    (∀ (appId? : Option String) (operationId? : Option Nat) (s : RunState),
      expandOperations appId? operationId? (expandOperations appId? operationId? s) =
        expandOperations appId? operationId? s) ∧
    (∀ (s : RunState) (op : OpRow) (descs : List HandlerStep),
      op.operations = some descs → descs.isEmpty = false →
      (s.steps.filter
        (fun x => x.operationId == some op.id && x.appId == op.appId)).length = 0 →
      ∀ r ∈ (expandOneOp s op).steps, r.appId = op.appId → r.operationId ≠ none) := by
  refine ⟨?_, ?_, ?_⟩
  · intro s op h
    exact expandOneOp_skip s op (Or.inr (Or.inr h))
  · intro appId? operationId? s
    unfold expandOperations
    dsimp only
    rw [foldl_expand_ops]
    exact foldl_expand_id_of_skip _ _
      (fun op hop => foldl_expand_all_skip _ s op hop)
  · intro s op descs hops he hlen r hr hrapp
    unfold expandOneOp at hr
    rw [hops] at hr
    dsimp only at hr
    rw [if_neg (by simp [he]), if_neg (by simp [hlen])] at hr
    dsimp only at hr
    rcases List.mem_append.mp hr with hr | hr
    · rw [List.mem_filter] at hr
      obtain ⟨_, hpred⟩ := hr
      simp only [Bool.not_eq_true', Bool.and_eq_false_iff, beq_iff_eq, beq_eq_false_iff_ne,
        ne_eq] at hpred
      rcases hpred with hpred | hpred
      · exact absurd hrapp hpred
      · exact hpred
    · unfold expanderRows at hr
      obtain ⟨q, _, hq⟩ := List.mem_map.mp hr
      rw [← hq]
      simp

/-- Witness for `expander_idempotent_and_purges_orphans`: an operation with
one linked Step is left untouched, and a re-expansion deletes the orphan. -/
theorem expander_idempotent_witness :
    expandOneOp
        { steps := [{ id := 7, appId := "a", operationId := some 1, stepIndex := 0,
                      type := some "create_model", target := some "M",
                      status := "pending", errorMessage := none }],
          ops := [demoOp], apps := [], specs := [], versions := [], nextId := 8 }
        demoOp =
      { steps := [{ id := 7, appId := "a", operationId := some 1, stepIndex := 0,
                    type := some "create_model", target := some "M",
                    status := "pending", errorMessage := none }],
        ops := [demoOp], apps := [], specs := [], versions := [], nextId := 8 } ∧
    (∀ r ∈ (expandOneOp
        { steps := [{ id := 5, appId := "a", operationId := none, stepIndex := 0,
                      type := some "t", target := none,
                      status := "pending", errorMessage := none }],
          ops := [demoOp], apps := [], specs := [], versions := [], nextId := 6 }
        demoOp).steps, r.appId = "a" → r.operationId ≠ none) :=
  ⟨expander_idempotent_and_purges_orphans.1
      { steps := [{ id := 7, appId := "a", operationId := some 1, stepIndex := 0,
                    type := some "create_model", target := some "M",
                    status := "pending", errorMessage := none }],
        ops := [demoOp], apps := [], specs := [], versions := [], nextId := 8 }
      demoOp
      ⟨{ id := 7, appId := "a", operationId := some 1, stepIndex := 0,
         type := some "create_model", target := some "M",
         status := "pending", errorMessage := none },
       List.mem_singleton_self _, rfl, rfl⟩,
   expander_idempotent_and_purges_orphans.2.2
      { steps := [{ id := 5, appId := "a", operationId := none, stepIndex := 0,
                    type := some "t", target := none,
                    status := "pending", errorMessage := none }],
        ops := [demoOp], apps := [], specs := [], versions := [], nextId := 6 }
      demoOp [demoDesc] rfl (by decide) (by decide)⟩

/-! Helper lemmas for the claim-selection order (C3). -/

/-- Proof-side reformulation of the selection fold: the first row achieving
the minimal `step_index`, seeded with accumulator `m`. -/
def firstMinStep (m : StepRow) : List StepRow → StepRow
  | [] => m
  | x :: xs => firstMinStep (if x.stepIndex < m.stepIndex then x else m) xs

theorem selectNextPending_eq_firstMin (steps : List StepRow) (appId : String) :
    selectNextPending steps appId =
      match steps.filter (fun r => r.appId == appId && r.status == "pending") with
      | [] => none
      | x :: xs => some (firstMinStep x xs) := by
  unfold selectNextPending
  have key : ∀ (l : List StepRow) (m : StepRow),
      l.foldl (fun acc r =>
        match acc with
        | none => some r
        | some mm => if r.stepIndex < mm.stepIndex then some r else some mm)
        (some m) = some (firstMinStep m l) := by
    intro l
    induction l with
    | nil => intro m; rfl
    | cons x xs ih =>
      intro m
      rw [List.foldl_cons]
      dsimp only
      by_cases h : x.stepIndex < m.stepIndex
      · rw [if_pos h, ih x]
        conv_rhs => rw [firstMinStep]
        rw [if_pos h]
      · rw [if_neg h, ih m]
        conv_rhs => rw [firstMinStep]
        rw [if_neg h]
  cases hf : steps.filter (fun r => r.appId == appId && r.status == "pending") with
  | nil => rfl
  | cons x xs =>
    rw [List.foldl_cons]
    dsimp only
    exact key xs x

theorem firstMinStep_le (l : List StepRow) (m : StepRow) :
    (firstMinStep m l).stepIndex ≤ m.stepIndex ∧
      ∀ x ∈ l, (firstMinStep m l).stepIndex ≤ x.stepIndex := by
  induction l generalizing m with
  | nil => exact ⟨Nat.le_refl _, fun x hx => absurd hx (List.not_mem_nil x)⟩
  | cons x xs ih =>
    unfold firstMinStep
    by_cases h : x.stepIndex < m.stepIndex
    · rw [if_pos h]
      obtain ⟨h1, h2⟩ := ih x
      refine ⟨Nat.le_trans h1 (Nat.le_of_lt h), ?_⟩
      intro y hy
      rcases List.mem_cons.mp hy with hy | hy
      · rw [hy]; exact h1
      · exact h2 y hy
    · rw [if_neg h]
      obtain ⟨h1, h2⟩ := ih m
      refine ⟨h1, ?_⟩
      intro y hy
      rcases List.mem_cons.mp hy with hy | hy
      · rw [hy]; exact Nat.le_trans h1 (Nat.le_of_not_lt h)
      · exact h2 y hy

theorem firstMinStep_mem (l : List StepRow) (m : StepRow) :
    firstMinStep m l = m ∨ firstMinStep m l ∈ l := by
  induction l generalizing m with
  | nil => exact Or.inl rfl
  | cons x xs ih =>
    unfold firstMinStep
    by_cases h : x.stepIndex < m.stepIndex
    · rw [if_pos h]
      rcases ih x with hh | hh
      · exact Or.inr (by rw [hh] ; exact List.mem_cons_self x xs)
      · exact Or.inr (List.mem_cons_of_mem x hh)
    · rw [if_neg h]
      rcases ih m with hh | hh
      · exact Or.inl hh
      · exact Or.inr (List.mem_cons_of_mem x hh)

/-- The executable selection only exhibits behavior the claim query allows:
a selected row is a pending row of the app with minimal `step_index`. -/
theorem selectNextPending_spec (steps : List StepRow) (appId : String) (r : StepRow)
    (h : selectNextPending steps appId = some r) :
    validClaimQueryResult steps appId r := by
  unfold validClaimQueryResult
  rw [selectNextPending_eq_firstMin] at h
  cases hf : steps.filter (fun x => x.appId == appId && x.status == "pending") with
  | nil =>
    rw [hf] at h
    exact absurd h (by simp)
  | cons y ys =>
    rw [hf] at h
    have hr : firstMinStep y ys = r := Option.some.inj h
    have hmemf : r ∈ y :: ys := by
      rcases firstMinStep_mem ys y with hh | hh
      · rw [← hr, hh]
        exact List.mem_cons_self _ _
      · rw [← hr]
        exact List.mem_cons_of_mem _ hh
    have hmemf2 : r ∈ steps.filter (fun x => x.appId == appId && x.status == "pending") := by
      rw [hf]
      exact hmemf
    have hprops := List.mem_filter.mp hmemf2
    have hpred := hprops.2
    simp only [Bool.and_eq_true, beq_iff_eq] at hpred
    refine ⟨hprops.1, hpred.1, hpred.2, ?_⟩
    intro x hx hxa hxs
    have hxf : x ∈ steps.filter (fun z => z.appId == appId && z.status == "pending") := by
      rw [List.mem_filter]
      refine ⟨hx, ?_⟩
      rw [hxa, hxs]
      simp
    rw [hf] at hxf
    rcases List.mem_cons.mp hxf with hxf | hxf
    · rw [hxf, ← hr]
      exact (firstMinStep_le ys y).1
    · rw [← hr]
      exact (firstMinStep_le ys y).2 x hxf

/-- A row of the updated table either was in the table or carries the written
status. -/
theorem mem_mark_cases {b : StepRow} {l : List StepRow} {id : Nat} {st : String}
    (h : b ∈ (markStepStatusById l id st).1) : b ∈ l ∨ b.status = st := by
  unfold markStepStatusById at h
  dsimp only at h
  obtain ⟨x, hx, hxb⟩ := List.mem_map.mp h
  by_cases hid : (x.id == id) = true
  · rw [if_pos hid] at hxb
    right
    rw [← hxb]
  · rw [if_neg hid] at hxb
    left
    rw [← hxb]
    exact hx

/-- A pending row of the updated table was already in the table, provided the
written status is not `pending`. -/
theorem mem_of_pending_mark {b : StepRow} {l : List StepRow} {id : Nat} {st : String}
    (hst : st ≠ "pending") (hp : b.status = "pending")
    (h : b ∈ (markStepStatusById l id st).1) : b ∈ l := by
  rcases mem_mark_cases h with h | h
  · exact h
  · rw [hp] at h
    exact absurd h.symm hst

/-- Every row of the updated table bearing the targeted id carries the
written status. -/
theorem mark_id_status {b : StepRow} {l : List StepRow} {id : Nat} {st : String}
    (h : b ∈ (markStepStatusById l id st).1) (hid : b.id = id) : b.status = st := by
  unfold markStepStatusById at h
  dsimp only at h
  obtain ⟨x, _, hxb⟩ := List.mem_map.mp h
  by_cases hx : (x.id == id) = true
  · rw [if_pos hx] at hxb
    rw [← hxb]
  · rw [if_neg hx] at hxb
    rw [← hxb] at hid
    exact absurd (beq_iff_eq.mpr hid) hx

/-- No invocation of the Run Loop ever moves a row into status `pending`:
a pending row of the post-state was already pending in the pre-state. -/
theorem runStep_pending_mem (appId : String) (s : RunState) (b : StepRow)
    (hb : b ∈ (runStepOnce appId s).2.steps) (hp : b.status = "pending") :
    b ∈ s.steps := by
  unfold runStepOnce runStepOnceAt at hb
  cases hsel : selectNextPending s.steps appId with
  | none =>
    rw [hsel] at hb
    exact hb
  | some a =>
    rw [hsel] at hb
    dsimp only at hb
    repeat' split at hb
    all_goals
      first
      | exact hb
      | exact mem_of_pending_mark (by decide) hp hb
      | exact mem_of_pending_mark (by decide) hp (mem_of_pending_mark (by decide) hp hb)
      | exact mem_of_pending_mark (by decide) hp
          (mem_of_pending_mark (by decide) hp (mem_of_pending_mark (by decide) hp hb))

/-- After an invocation claims step `a`, no row with `a`'s id is pending. -/
theorem runStep_claimed_not_pending (appId : String) (s : RunState) (a b : StepRow)
    (hsel : selectNextPending s.steps appId = some a)
    (hb : b ∈ (runStepOnce appId s).2.steps) (hid : b.id = a.id) :
    b.status ≠ "pending" := by
  unfold runStepOnce runStepOnceAt at hb
  rw [hsel] at hb
  dsimp only at hb
  repeat' split at hb
  all_goals
    rw [mark_id_status hb hid]
  all_goals decide

/-- C3 counterexample. The claim query constrains only `step_index`, so on
an index tie the database may return either row: here two pending Steps of
app `a` (from operations 8 and 9) both carry index 0, and the later-created
row is an admissible query result, although it is not the earliest-created.
The claimed tie-break by creation time is therefore not a property the
program guarantees. -/
theorem runStep_tiebreak_counterexample :
    validClaimQueryResult
      [{ id := 30, appId := "a", operationId := some 8, stepIndex := 0,
         type := some "create_page", target := some "p1",
         status := "pending", errorMessage := none },
       { id := 31, appId := "a", operationId := some 9, stepIndex := 0,
         type := some "create_page", target := some "p2",
         status := "pending", errorMessage := none }]
      "a"
      { id := 31, appId := "a", operationId := some 9, stepIndex := 0,
        type := some "create_page", target := some "p2",
        status := "pending", errorMessage := none } ∧
    ({ id := 31, appId := "a", operationId := some 9, stepIndex := 0,
       type := some "create_page", target := some "p2",
       status := "pending", errorMessage := none } : StepRow).stepIndex =
      ({ id := 30, appId := "a", operationId := some 8, stepIndex := 0,
         type := some "create_page", target := some "p1",
         status := "pending", errorMessage := none } : StepRow).stepIndex ∧
    ({ id := 31, appId := "a", operationId := some 9, stepIndex := 0,
       type := some "create_page", target := some "p2",
       status := "pending", errorMessage := none } : StepRow) ≠
      { id := 30, appId := "a", operationId := some 8, stepIndex := 0,
        type := some "create_page", target := some "p1",
        status := "pending", errorMessage := none } := by
  refine ⟨?_, by decide, by decide⟩
  unfold validClaimQueryResult
  decide

/-- C3 amended. Every invocation claims a pending Step of the app with the
lowest `step_index`; the order among Steps tying on the index is left
unspecified by the query (no secondary sort key), so no tie-break by
creation time is claimed.  Within one Operation whose step indexes are
unique, Steps are nevertheless claimed in strictly increasing index order
across successive invocations, for every admissible resolution of index
ties: the second conjunct quantifies the later claim over all rows the
query may return on the post-state, and the third instantiates it to the
executable model's own selection. -/
theorem runStep_claims_lowest_index_strict_order :
    (∀ (steps : List StepRow) (appId : String) (r : StepRow),
      selectNextPending steps appId = some r →
      validClaimQueryResult steps appId r) ∧
    (∀ (appId : String) (s : RunState) (a b : StepRow) (oid : Nat),
      (∀ x ∈ s.steps, ∀ y ∈ s.steps, x.operationId = some oid → y.operationId = some oid →
        x.stepIndex = y.stepIndex → x = y) →
      selectNextPending s.steps appId = some a →
      validClaimQueryResult (runStepOnce appId s).2.steps appId b →
      a.operationId = some oid → b.operationId = some oid →
      a.stepIndex < b.stepIndex) ∧
    (∀ (appId : String) (s : RunState) (a b : StepRow) (oid : Nat),
      (∀ x ∈ s.steps, ∀ y ∈ s.steps, x.operationId = some oid → y.operationId = some oid →
        x.stepIndex = y.stepIndex → x = y) →
      selectNextPending s.steps appId = some a →
      selectNextPending (runStepOnce appId s).2.steps appId = some b →
      a.operationId = some oid → b.operationId = some oid →
      a.stepIndex < b.stepIndex) := by
  have habstract : ∀ (appId : String) (s : RunState) (a b : StepRow) (oid : Nat),
      (∀ x ∈ s.steps, ∀ y ∈ s.steps, x.operationId = some oid → y.operationId = some oid →
        x.stepIndex = y.stepIndex → x = y) →
      selectNextPending s.steps appId = some a →
      validClaimQueryResult (runStepOnce appId s).2.steps appId b →
      a.operationId = some oid → b.operationId = some oid →
      a.stepIndex < b.stepIndex := by
    intro appId s a b oid huniq hsa hvb haop hbop
    obtain ⟨hbmem', hbapp, hbpend, _⟩ := hvb
    have hbmem : b ∈ s.steps := runStep_pending_mem appId s b hbmem' hbpend
    obtain ⟨hamem, _, _, hamin⟩ := selectNextPending_spec _ _ _ hsa
    have hle : a.stepIndex ≤ b.stepIndex := hamin b hbmem hbapp hbpend
    rcases Nat.lt_or_ge a.stepIndex b.stepIndex with hlt | hge
    · exact hlt
    · have heq : a.stepIndex = b.stepIndex := Nat.le_antisymm hle hge
      have hab : a = b := huniq a hamem b hbmem haop hbop heq
      have hnp := runStep_claimed_not_pending appId s a b hsa hbmem' (by rw [← hab])
      exact absurd hbpend hnp
  refine ⟨selectNextPending_spec, habstract, ?_⟩
  intro appId s a b oid huniq hsa hsb haop hbop
  exact habstract appId s a b oid huniq hsa (selectNextPending_spec _ _ _ hsb) haop hbop

/-- The first of the two direct Steps of the strict-order demonstration. -/
def orderStep0 : StepRow :=
  { id := 20, appId := "a", operationId := some 7, stepIndex := 0,
    type := some "create_page", target := some "p1" }

/-- The second of the two direct Steps of the strict-order demonstration. -/
def orderStep1 : StepRow :=
  { id := 21, appId := "a", operationId := some 7, stepIndex := 1,
    type := some "create_page", target := some "p2" }

/-- The strict-order demonstration state: two pending Steps of operation 7. -/
def orderState : RunState :=
  { steps := [orderStep0, orderStep1], ops := [],
    apps := [{ id := "a", userId := some "u" }], specs := [],
    versions := [], nextId := 0 }

/-- Witness for `runStep_claims_lowest_index_strict_order`: from two pending
Steps of operation 7 with indexes 0 and 1, the first invocation claims index
0 and the next selection picks index 1, a strictly larger index. -/
theorem runStep_claims_lowest_strict_witness :
    orderStep0.stepIndex < orderStep1.stepIndex :=
  runStep_claims_lowest_index_strict_order.2.2 "a" orderState orderStep0 orderStep1 7
    (by decide) (by decide) (by decide) rfl rfl

end Buildr
